import Mathlib

/-!
Shallow embedding of the `business-turku-backend` ingestion pipeline
(company loading script: classification cache, translator, registry fetch
with pagination, batch vectorizer, upsert store writer, main orchestration).

External collaborators (HTTP endpoints, the datastore, the `Date` parser)
are modelled as oracle parameters; JavaScript string/number truthiness is
modelled explicitly where the source relies on it.
-/

namespace BusinessTurku

/-! ### JavaScript primitives -/

/-- JS whitespace class (the characters relevant to `\s`, `String.prototype.trim`). -/
def jsWhitespace (c : Char) : Bool :=
  c = ' ' || c = '\t' || c = '\n' || c = '\r' || c = '\x0b' || c = '\x0c' ||
  c = ' ' || c = ' ' || c = ' '

/-- Truthiness of a possibly-undefined JS string: `undefined` and `""` are falsy. -/
def jsStrTruthy (o : Option String) : Bool :=
  match o with
  | none => false
  | some s => s ≠ ""

/-- JS `a || b` on possibly-undefined strings. -/
def jsOrStr (a b : Option String) : Option String :=
  if jsStrTruthy a then a else b

/-- JS `String.prototype.trim` on the character list of a string. -/
def jsTrim (l : List Char) : List Char :=
  (l.dropWhile jsWhitespace).rdropWhile jsWhitespace

/-- JS `s.replace(/^,\s*/, '')`: drop one leading comma and the whitespace after it. -/
def stripLeadingCommaWs (l : List Char) : List Char :=
  match l with
  | [] => []
  | c :: t => if c = ',' then t.dropWhile jsWhitespace else c :: t

/-- JS `s.replace(/,\s*$/, '')`: drop a final comma followed only by whitespace. -/
def stripTrailingCommaWs (l : List Char) : List Char :=
  match (l.rdropWhile jsWhitespace).getLast? with
  | some ',' => (l.rdropWhile jsWhitespace).dropLast
  | _ => l

/-! ### Translator (`translateToEnglish`, `translateFinnishToEnglishBasic`) -/

/-- The source's `finnishChars` regex `/[äöåÄÖÅ]/` applied to a text:
`true` iff some character is a Finnish diacritic. -/
def hasFinnishChars (text : String) : Bool :=
  text.data.any fun c => c = 'ä' || c = 'ö' || c = 'å' || c = 'Ä' || c = 'Ö' || c = 'Å'

/-- Character class of the source's `/^[a-zA-Z\s,.-]+$/` pattern. -/
def asciiPatternChar (c : Char) : Bool :=
  ('a' ≤ c && c ≤ 'z') || ('A' ≤ c && c ≤ 'Z') || jsWhitespace c ||
  c = ',' || c = '.' || c = '-'

/-- The source's test `/^[a-zA-Z\s,.-]+$/.test(text)`. -/
def matchesAsciiPattern (text : String) : Bool :=
  text ≠ "" && text.data.all asciiPatternChar

/-- The static fallback dictionary of `translateFinnishToEnglishBasic` (the
`translations` object literal), as an association list in source order. -/
def translationsMap : List (String × String) :=
  [("Maatalous, metsätalous ja kalatalous", "Agriculture, forestry and fishing"),
   ("Kaivostoiminta ja louhinta", "Mining and quarrying"),
   ("Teollisuus", "Manufacturing"),
   ("Sähkö-, kaasu- ja lämpöhuolto, jäähdytysliiketoiminta",
    "Electricity, gas, steam and air conditioning supply"),
   ("Vesihuolto, viemäri- ja jätevesihuolto, jätehuolto ja muu ympäristön puhtaanapito",
    "Water supply; sewerage, waste management"),
   ("Rakentaminen", "Construction"),
   ("Tukku- ja vähittäiskauppa", "Wholesale and retail trade"),
   ("Kuljetus ja varastointi", "Transportation and storage"),
   ("Majoitus- ja ravitsemustoiminta", "Accommodation and food service activities"),
   ("Informaatio ja viestintä", "Information and communication"),
   ("Rahoitus- ja vakuutustoiminta", "Financial and insurance activities"),
   ("Kiinteistöalan toiminta", "Real estate activities"),
   ("Ammatillinen, tieteellinen ja tekninen toiminta",
    "Professional, scientific and technical activities"),
   ("Hallinto- ja tukipalvelutoiminta", "Administrative and support service activities"),
   ("Julkinen hallinto ja maanpuolustus", "Public administration and defence"),
   ("Koulutus", "Education"),
   ("Terveys- ja sosiaalipalvelut", "Human health and social work activities"),
   ("Taiteet, viihde ja virkistys", "Arts, entertainment and recreation"),
   ("Muu palvelutoiminta", "Other service activities"),
   ("Asuntojen ja asuinkiinteistöjen hallinta", "Residential property management"),
   ("Muualla luokittelematon muu liike-elämän tukipalvelutoiminta",
    "Other business support services not elsewhere classified"),
   ("Hevosten ja muiden hevoseläinten kasvatus", "Raising of horses and other equines"),
   ("Sähköasennus", "Electrical installation"),
   ("Muuraustyöt", "Masonry work"),
   ("Hammaslääkäripalvelut", "Dental practice activities"),
   ("Muu lääkintä- ja hammaslääkintäinstrumenttien ja -tarvikkeiden valmistus",
    "Other manufacture of medical and dental instruments and supplies"),
   ("Tieliikenteen muu kuin säännöllinen henkilökuljetus", "Other passenger land transport"),
   ("Rakennuspaikan valmistelutyöt", "Site preparation"),
   ("Muu kiinteistöalan toiminta palkkio- tai sopimusperhsteella",
    "Other real estate activities on a fee or contract basis"),
   ("Muualla luokittelematon muu rahoituspalvelutoiminta",
    "Other financial service activities not elsewhere classified"),
   ("Kiinteistöjä koskevat välityspalvelut", "Real estate agency services"),
   ("Marjojen, pähkinöiden ja muiden puissa ja pensaissa kasvavien hedelmien viljely",
    "Growing of berries, nuts and other tree and bush fruits"),
   ("Sähkönjakelu- ja valvontalaitteiden valmistus",
    "Manufacture of electricity distribution and control apparatus"),
   ("Muu rahoitusta palveleva toiminta pois lukien vakuutus- ja eläkevakuutustoiminta",
    "Other activities auxiliary to financial services, excluding insurance and pension funding"),
   ("Palo- ja pelastustoimi", "Fire and rescue services"),
   ("Muualla luokittelematon muu liike-elämän tukipalve", "Other business support services"),
   ("Tieliikenteen muu kuin säännöllinen henkilökuljetu", "Other passenger land transport"),
   ("Muu kiinteistöalan toiminta palkkio- tai sopimuspe",
    "Other real estate activities on fee or contract basis"),
   ("Muualla luokittelematon muu rahoituspalvelutoimint", "Other financial service activities"),
   ("Marjojen, pähkinöiden ja muiden puissa ja pensaiss", "Growing of berries, nuts and tree fruits"),
   ("Muu lääkintä- ja hammaslääkintäinstrumenttien ja -",
    "Other manufacture of medical and dental instruments"),
   ("Muu rahoitusta palveleva toiminta pois lukien vaku",
    "Other activities auxiliary to financial services")]

/-- `translateFinnishToEnglishBasic`: `translations[finnishText] || finnishText`
(exact-key lookup in the static dictionary, the input itself when absent). -/
def translateFinnishToEnglishBasic (finnishText : String) : String :=
  match translationsMap.find? (fun p => p.1 = finnishText) with
  | some p => p.2
  | none => finnishText

/-- `translateToEnglish`, with the DeepL HTTP call abstracted as the oracle
`api`. The second component records whether the network collaborator was
invoked. The success path models `response.data.translations[0].text || text`. -/
def translateToEnglish (api : String → Except Unit String) (text : String) :
    String × Bool :=
  if text = "" then (text, false)
  else if !hasFinnishChars text && matchesAsciiPattern text then (text, false)
  else
    match api text with
    | Except.ok translated => (if translated = "" then text else translated, true)
    | Except.error _ => (translateFinnishToEnglishBasic text, true)

/-! ### Classification cache (`fetchIndustryClassifications`) -/

/-- An element of `classificationItemNames`. -/
structure ClassificationName where
  lang : String
  name : Option String
deriving DecidableEq

/-- An element of `explanatoryNotes`: `includes` and `lang` arrays, each
possibly absent. -/
structure ExplanatoryNote where
  includes : Option (List String)
  lang : Option (List String)
deriving DecidableEq

/-- One item of the Statistics Finland classification response. -/
structure ClassificationItem where
  code : Option String
  classificationItemNames : Option (List ClassificationName)
  explanatoryNotes : Option (List ExplanatoryNote)
deriving DecidableEq

/-- The value stored per code in the classification map. -/
structure ClassificationEntry where
  name : String
  description : String
  isFinnish : Bool
deriving DecidableEq

/-- JS `o || ''` collapsed to a plain string (empty when falsy). -/
def jsStrGetD (o : Option String) : String :=
  if jsStrTruthy o then o.getD "" else ""

/-- JS `Array.prototype.indexOf` (−1 when absent). -/
def jsIndexOf (ls : List String) (s : String) : Int :=
  match ls.findIdx? (fun x => x = s) with
  | some n => (n : Int)
  | none => -1

/-- The source's `note.lang?.indexOf(x) || -1`: `-1` when `lang` is absent, and
— by JS numeric truthiness — also when the index is `0`. -/
def jsIndexOfOrNeg (olang : Option (List String)) (s : String) : Int :=
  match olang with
  | none => -1
  | some ls => if jsIndexOf ls s = 0 then -1 else jsIndexOf ls s

/-- JS object property assignment `m[k] = v` on an insertion-ordered map. -/
def jsObjectSet {β : Type} (m : List (String × β)) (k : String)
    (v : β) : List (String × β) :=
  if m.any (fun p => p.1 = k) then
    m.map (fun p => if p.1 = k then (k, v) else p)
  else m ++ [(k, v)]

/-- The per-item entry built inside the `data.forEach` of
`fetchIndustryClassifications`: language-preferring name, description from the
first explanatory note, and the `isFinnish` flag. -/
def classificationEntryOf (item : ClassificationItem) : ClassificationEntry :=
  let name :=
    match item.classificationItemNames with
    | some names =>
        let englishName := names.find? (fun n => n.lang = "en")
        let finnishName := names.find? (fun n => n.lang = "fi")
        jsStrGetD (jsOrStr (englishName.bind (fun n => n.name))
          (finnishName.bind (fun n => n.name)))
    | none => ""
  let description :=
    match item.explanatoryNotes with
    | some notes =>
        match notes.head? with
        | some note =>
            match note.includes with
            | some incs =>
                let englishIndex := jsIndexOfOrNeg note.lang "en"
                let finnishIndex := jsIndexOfOrNeg note.lang "fi"
                if 0 ≤ englishIndex then jsStrGetD incs[englishIndex.toNat]?
                else if 0 ≤ finnishIndex then jsStrGetD incs[finnishIndex.toNat]?
                else jsStrGetD incs[0]?
            | none => ""
        | none => ""
    | none => ""
  let isFinnish :=
    match item.classificationItemNames with
    | some names => !names.any (fun n => n.lang = "en")
    | none => true
  ⟨name, description, isFinnish⟩

/-- The map built from a successful classification fetch (`data.forEach` with
`industryClassifications[item.code] = …` guarded by `if (item.code)`). -/
def buildClassifications (data : List ClassificationItem) :
    List (String × ClassificationEntry) :=
  data.foldl
    (fun m item =>
      if jsStrTruthy item.code then jsObjectSet m (item.code.getD "") (classificationEntryOf item)
      else m)
    []

/-- Result of one call to the classification cache: the returned mapping, the
new value of the module-level `industryClassifications` variable, and whether a
network fetch was performed. -/
structure CacheFetchOut where
  result : List (String × ClassificationEntry)
  newCache : Option (List (String × ClassificationEntry))
  fetched : Bool
deriving DecidableEq

/-- `fetchIndustryClassifications` as a state transformer on the module-level
cache variable, with the HTTP call abstracted as `oracle`. On the error path
the source's `catch` returns `{}` without assigning the cache variable. -/
def fetchIndustryClassifications (oracle : Except Unit (List ClassificationItem))
    (cache : Option (List (String × ClassificationEntry))) : CacheFetchOut :=
  match cache with
  | some m => ⟨m, some m, false⟩
  | none =>
    match oracle with
    | Except.ok data =>
        let m := buildClassifications data
        ⟨m, some m, true⟩
    | Except.error _ => ⟨[], none, true⟩

/-! ### Classification cache theorems (claim C3) -/

/-- Counterexample to claim C3 as stated: a failed first fetch is NOT cached —
the cache variable stays unset (`none`, the source's `null`), so a second call
within the same run performs the network fetch again instead of returning a
memoized empty mapping. -/
theorem classification_cache_counterexample :
    (fetchIndustryClassifications (Except.error ()) none).result = [] ∧
    (fetchIndustryClassifications (Except.error ()) none).newCache = none ∧
    (fetchIndustryClassifications (Except.error ())
      (fetchIndustryClassifications (Except.error ()) none).newCache).fetched = true :=
  ⟨rfl, rfl, rfl⟩

/-- Claim C3 as amended: once the cache holds a value (which happens exactly
when a fetch succeeded, including with an empty item list), every subsequent
call returns the memoized mapping without fetching; a failed fetch from the
unset state returns the empty mapping but leaves the cache unset, so the next
call fetches again. -/
theorem classification_cache_behavior (oracle : Except Unit (List ClassificationItem)) :
    (∀ m, fetchIndustryClassifications oracle (some m) = ⟨m, some m, false⟩) ∧
    (∀ data, oracle = Except.ok data →
      fetchIndustryClassifications oracle none =
        ⟨buildClassifications data, some (buildClassifications data), true⟩) ∧
    (oracle = Except.error () →
      fetchIndustryClassifications oracle none = ⟨[], none, true⟩) := by
  refine ⟨fun m => rfl, fun data h => by rw [h]; rfl, fun h => by rw [h]; rfl⟩

/-- Witness for C3 (amended): a cached mapping is returned without fetching, and
a failing fetch from the unset state returns empty and leaves the cache unset. -/
theorem classification_cache_behavior_witness :
    fetchIndustryClassifications (Except.ok []) (some []) = ⟨[], some [], false⟩ ∧
    fetchIndustryClassifications (Except.error ()) none = ⟨[], none, true⟩ :=
  ⟨(classification_cache_behavior (Except.ok [])).1 [],
   (classification_cache_behavior (Except.error ())).2.2 rfl⟩

/-! ### Batch vectorizer (`vectorizeWithVoyage`) -/

/-- Partition of a list into consecutive chunks of `n` (the slices
`texts.slice(i, i + batchSize)` visited by the vectorizer's `for` loop). -/
def chunksOf {α : Type} (n : Nat) (l : List α) : List (List α) :=
  if _h : l.length = 0 ∨ n = 0 then [] else l.take n :: chunksOf n (l.drop n)
termination_by l.length
decreasing_by
  rcases not_or.mp _h with ⟨h1, h2⟩
  simp only [List.length_drop]
  omega

theorem chunksOf_nil {α : Type} {n : Nat} : chunksOf (α := α) n [] = [] := by
  unfold chunksOf
  simp

theorem chunksOf_cons {α : Type} {n : Nat} {l : List α} (h1 : l ≠ []) (h2 : n ≠ 0) :
    chunksOf n l = l.take n :: chunksOf n (l.drop n) := by
  conv_lhs => unfold chunksOf
  rw [dif_neg (by simp [List.length_eq_zero, h1, h2])]

/-- `vectorizeWithVoyage`: the `for (let i = 0; i < texts.length; i += batchSize)`
loop with `batchSize = 100`, one embedding request per slice, appending the
returned vectors in order (`allVectors.push(...vectors)`); any request error is
rethrown immediately. The embedding HTTP call is the oracle `embed`; the
60-second inter-batch delay has no observable effect on the result and is not
modelled. -/
def vectorizeWithVoyage {V ε : Type} (embed : List String → Except ε (List V))
    (texts : List String) : Except ε (List V) :=
  if _h : texts = [] then Except.ok []
  else
    match embed (texts.take 100) with
    | Except.error e => Except.error e
    | Except.ok vectors =>
        match vectorizeWithVoyage embed (texts.drop 100) with
        | Except.error e => Except.error e
        | Except.ok rest => Except.ok (vectors ++ rest)
termination_by texts.length
decreasing_by
  have := List.length_pos.mpr _h
  simp only [List.length_drop]
  omega

/-- The sequence of embedding requests issued by `vectorizeWithVoyage` (each
element is the input of one request), stopping at the first failing request. -/
def vectorizeCalls {V ε : Type} (embed : List String → Except ε (List V))
    (texts : List String) : List (List String) :=
  if _h : texts = [] then []
  else
    texts.take 100 ::
      match embed (texts.take 100) with
      | Except.error _ => []
      | Except.ok _ => vectorizeCalls embed (texts.drop 100)
termination_by texts.length
decreasing_by
  have := List.length_pos.mpr _h
  simp only [List.length_drop]
  omega

/-! ### Vectorizer theorems (claims C1, C9) -/

/-- Claim C1: when every embedding request returns exactly one vector per input
string in input order (modelled by a per-string embedding function `f`), the
batch vectorizer returns `texts.map f` — one vector per input, same order —
and issues exactly one request per consecutive 100-chunk of the input. -/
theorem vectorize_length_order {V ε : Type} (embed : List String → Except ε (List V))
    (f : String → V) (texts : List String)
    (h : ∀ chunk : List String, embed chunk = Except.ok (chunk.map f)) :
    vectorizeWithVoyage embed texts = Except.ok (texts.map f) ∧
    vectorizeCalls embed texts = chunksOf 100 texts := by
  generalize hn : texts.length = n
  induction n using Nat.strong_induction_on generalizing texts with
  | _ n ih =>
    by_cases he : texts = []
    · subst he
      refine ⟨by unfold vectorizeWithVoyage; simp, by unfold vectorizeCalls; simp [chunksOf_nil]⟩
    · have hlt : (texts.drop 100).length < n := by
        have := List.length_pos.mpr he
        simp only [List.length_drop]
        omega
      have ihd := ih (texts.drop 100).length (by omega) (texts.drop 100) rfl
      have hmap : (texts.take 100).map f ++ (texts.drop 100).map f = texts.map f := by
        rw [← List.map_append, List.take_append_drop]
      constructor
      · conv_lhs => unfold vectorizeWithVoyage
        rw [dif_neg he, h (texts.take 100), ihd.1]
        exact congrArg Except.ok hmap
      · conv_lhs => unfold vectorizeCalls
        rw [dif_neg he, h (texts.take 100), chunksOf_cons he (by omega)]
        exact congrArg (List.cons (texts.take 100)) ihd.2

/-- Witness for C1: three texts embed to three vectors in order, in a single
request on the single 100-chunk. -/
theorem vectorize_length_order_witness :
    vectorizeWithVoyage (ε := Unit) (fun c => Except.ok (c.map String.length))
      ["a", "bb", "ccc"] = Except.ok [1, 2, 3] ∧
    vectorizeCalls (ε := Unit) (fun c => Except.ok (c.map String.length))
      ["a", "bb", "ccc"] = [["a", "bb", "ccc"]] := by
  have h := vectorize_length_order (ε := Unit)
    (fun c => Except.ok (c.map String.length)) String.length ["a", "bb", "ccc"]
    (fun _ => rfl)
  refine ⟨by rw [h.1]; rfl, by rw [h.2]; simp [chunksOf]⟩

/-- Claim C9: if the embedding request for some chunk fails (every earlier
chunk's request having succeeded), the whole vectorize call propagates that
error and returns no vectors at all — no partial result, no retry. -/
theorem vectorize_error_propagation {V ε : Type} (embed : List String → Except ε (List V))
    (e : ε) (pre post : List (List String)) (c : List String) (texts : List String)
    (hchunks : chunksOf 100 texts = pre ++ c :: post)
    (hpre : ∀ d ∈ pre, ∃ vs, embed d = Except.ok vs)
    (hc : embed c = Except.error e) :
    vectorizeWithVoyage embed texts = Except.error e := by
  induction pre generalizing texts with
  | nil =>
    have he : texts ≠ [] := by
      intro h
      rw [h, chunksOf_nil] at hchunks
      exact absurd hchunks (by simp)
    rw [chunksOf_cons he (by omega)] at hchunks
    have hcile : c = texts.take 100 := by
      simpa using congrArg List.head? hchunks.symm
    conv_lhs => unfold vectorizeWithVoyage
    rw [dif_neg he, ← hcile, hc]
  | cons d pre' ihp =>
    have he : texts ≠ [] := by
      intro h
      rw [h, chunksOf_nil] at hchunks
      exact absurd hchunks (by simp)
    rw [chunksOf_cons he (by omega)] at hchunks
    have hd : d = texts.take 100 := by
      simpa using congrArg List.head? hchunks.symm
    have hrest : chunksOf 100 (texts.drop 100) = pre' ++ c :: post := by
      simpa using congrArg List.tail hchunks
    obtain ⟨vs, hvs⟩ := hpre d (List.mem_cons_self d pre')
    have htail := ihp (texts.drop 100) hrest (fun x hx => hpre x (List.mem_cons_of_mem d hx))
    conv_lhs => unfold vectorizeWithVoyage
    rw [dif_neg he, ← hd, hvs, htail]

/-- Witness for C9: a failing embedding request on the only chunk aborts the
whole call with the propagated error. -/
theorem vectorize_error_propagation_witness :
    vectorizeWithVoyage (V := Nat) (fun _ => Except.error 7) ["a"] = Except.error 7 :=
  vectorize_error_propagation (fun _ => Except.error 7) 7 [] [] ["a"] ["a"]
    (by simp [chunksOf]) (by simp) rfl

/-- JS object property read `m[k]` on an insertion-ordered map
(`undefined` when absent). -/
def jsObjectGet {β : Type} (m : List (String × β)) (k : String) : Option β :=
  (m.find? (fun p => p.1 = k)).map (fun p => p.2)

/-- Truthiness of a possibly-undefined JS number: `undefined` and `0` are falsy. -/
def jsNumTruthy (o : Option Nat) : Bool :=
  match o with
  | none => false
  | some n => n ≠ 0

/-- The `details` payload of a processed company. -/
structure CompanyDetails where
  name : String
  description : String
  address : String
  registrationDate : Option String
  categoryName : String
deriving DecidableEq

/-- A processed company as handed to `storeInSupabase`. -/
structure Company where
  name : String
  businessId : String
  industryCode : String
  details : CompanyDetails
deriving DecidableEq

/-! ### Registry source adapter (`fetchCompaniesFromAPI`) -/

/-- The raw `businessId` field, which the source supports in both the nested
object shape (`businessId.value`, `businessId.registrationDate`) and the flat
string shape. -/
inductive BusinessIdField
  | strVal (s : String)
  | objVal (value : Option String) (registrationDate : Option String)
deriving DecidableEq

/-- JS `company.businessId?.value` (undefined on the flat string shape). -/
def businessIdValue : Option BusinessIdField → Option String
  | some (BusinessIdField.objVal v _) => v
  | _ => none

/-- JS `company.businessId?.registrationDate` (undefined on the flat shape). -/
def businessIdRegDate : Option BusinessIdField → Option String
  | some (BusinessIdField.objVal _ rd) => rd
  | _ => none

/-- An element of the raw `names` array. -/
structure CompanyNameEntry where
  type : String
  endDate : Option String
  name : Option String
deriving DecidableEq

/-- An element of `mainBusinessLine.descriptions`. -/
structure BusinessLineDescription where
  languageCode : String
  description : Option String
deriving DecidableEq

/-- The raw `mainBusinessLine` object. -/
structure MainBusinessLine where
  type : Option String
  descriptions : Option (List BusinessLineDescription)
deriving DecidableEq

/-- An element of an address's `postOffices` array. -/
structure PostOffice where
  languageCode : String
  city : Option String
deriving DecidableEq

/-- An element of the raw `addresses` array (`type === 1` marks the visiting
address; the numeric comparison is on a number, unlike the string-typed name
`type`). -/
structure VisitingAddress where
  type : Int
  street : Option String
  buildingNumber : Option String
  entrance : Option String
  apartmentNumber : Option String
  postCode : Option String
  postOffices : Option (List PostOffice)
deriving DecidableEq

/-- A raw company record as returned by one page of the listing endpoint. -/
structure RawCompany where
  businessId : Option BusinessIdField
  registrationDate : Option String
  names : List CompanyNameEntry
  mainBusinessLine : Option MainBusinessLine
  addresses : List VisitingAddress
deriving DecidableEq

/-- JS `a || d` for a possibly-undefined string with a non-empty default. -/
def jsStrOrDefault (o : Option String) (d : String) : String :=
  if jsStrTruthy o then o.getD "" else d

/-- The filter's `company.businessId?.registrationDate || company.registrationDate`. -/
def companyRegDate (company : RawCompany) : Option String :=
  jsOrStr (businessIdRegDate company.businessId) company.registrationDate

/-- The filter's `regDate ? new Date(regDate).getFullYear() : 0`, with `Date`
parsing abstracted as the oracle `yearOf`. -/
def companyRegYear (yearOf : String → Int) (company : RawCompany) : Int :=
  if jsStrTruthy (companyRegDate company) then yearOf ((companyRegDate company).getD "") else 0

/-- The filter's `company.mainBusinessLine?.type` truthiness test. -/
def hasIndustryCodeOf (company : RawCompany) : Bool :=
  jsStrTruthy (company.mainBusinessLine.bind (fun m => m.type))

/-- The page filter: registered in 2020 or later AND has an industry code. -/
def isValidCompany (yearOf : String → Int) (company : RawCompany) : Bool :=
  decide (2020 ≤ companyRegYear yearOf company) && hasIndustryCodeOf company

/-- `company.businessId?.value || company.businessId || ''`. In the corner case
where the nested object is present but its `value` is falsy, the raw object
itself flows through `||`; that object is modelled by its JS string coercion. -/
def extractBusinessId (company : RawCompany) : String :=
  if jsStrTruthy (businessIdValue company.businessId) then
    (businessIdValue company.businessId).getD ""
  else
    match company.businessId with
    | some (BusinessIdField.strVal s) => s
    | some (BusinessIdField.objVal _ _) => "[object Object]"
    | none => ""

/-- The city chain
`postOffices?.find(p => p.languageCode === '3')?.city || … languageCode === '1' … || postOffices?.[0]?.city || ''`. -/
def extractCity (postOffices : Option (List PostOffice)) : String :=
  let c3 := postOffices.bind (fun ps => (ps.find? (fun p => p.languageCode = "3")).bind
    (fun p => p.city))
  let c1 := postOffices.bind (fun ps => (ps.find? (fun p => p.languageCode = "1")).bind
    (fun p => p.city))
  let c0 := postOffices.bind (fun ps => ps.head?.bind (fun p => p.city))
  jsStrGetD (jsOrStr (jsOrStr c3 c1) c0)

/-- The cleanup tail of the address template:
`.trim().replace(/^,\s*/, '').replace(/,\s*$/, '')`. -/
def cleanupAddr (l : List Char) : List Char :=
  stripTrailingCommaWs (stripLeadingCommaWs (jsTrim l))

/-- The address-composition block: defaulted parts, the space-prefixed optional
entrance and apartment number, `filter(part => part).join('')`, the
`` `${addressParts}, ${postCode} ${city}` `` template, `trim()`, and the two
comma-stripping `replace`s. -/
def composeAddress (v : VisitingAddress) : String :=
  let street := jsStrGetD v.street
  let buildingNumber := jsStrGetD v.buildingNumber
  let entrance := if jsStrTruthy v.entrance then " " ++ v.entrance.getD "" else ""
  let apartmentNumber := if jsStrTruthy v.apartmentNumber then " " ++ v.apartmentNumber.getD "" else ""
  let postCode := jsStrGetD v.postCode
  let city := extractCity v.postOffices
  let addressParts := String.join
    (([street, buildingNumber, entrance, apartmentNumber]).filter (fun part => part ≠ ""))
  String.mk (cleanupAddr (addressParts ++ ", " ++ postCode ++ " " ++ city).data)

/-- Per-record normalization of `fetchCompaniesFromAPI` (the body of the
`for` loop over the truncated company list): name, description, address,
registration date and translated category extraction. The per-label
translation call is abstracted as the oracle `translateFn`. -/
def processCompany (classifications : List (String × ClassificationEntry))
    (translateFn : String → String) (company : RawCompany) : Company :=
  let businessId := extractBusinessId company
  let companyName :=
    match company.names with
    | [] => "Unknown"
    | names =>
        let activeName := names.find? (fun n => n.type = "1" && !jsStrTruthy n.endDate)
        jsStrOrDefault (jsOrStr (activeName.bind (fun n => n.name))
          (names.head?.bind (fun n => n.name))) "Unknown"
  let description :=
    match company.mainBusinessLine.bind (fun m => m.descriptions) with
    | some descs =>
        let englishDesc := descs.find? (fun d => d.languageCode = "3")
        jsStrGetD (jsOrStr (englishDesc.bind (fun d => d.description))
          (descs.head?.bind (fun d => d.description)))
    | none => ""
  let address :=
    match company.addresses with
    | [] => ""
    | addresses =>
        let visitingAddress :=
          match addresses.find? (fun a => a.type = 1) with
          | some a => some a
          | none => addresses.head?
        match visitingAddress with
        | some v => composeAddress v
        | none => ""
  let registrationDate :=
    let rd := companyRegDate company
    if jsStrTruthy rd then rd else none
  let industryCode := company.mainBusinessLine.bind (fun m => m.type)
  let categoryName :=
    if jsStrTruthy industryCode then
      match jsObjectGet classifications (industryCode.getD "") with
      | some classification =>
          if classification.name ≠ "" && classification.isFinnish then
            translateFn classification.name
          else classification.name
      | none => "Industry Code: " ++ industryCode.getD ""
    else ""
  Company.mk companyName businessId (jsStrGetD industryCode)
    (CompanyDetails.mk companyName description address registrationDate categoryName)

/-- The pagination loop of `fetchCompaniesFromAPI`: starting at page 1, while
the accumulated filtered records are fewer than `maxResults`, request the next
page (the page HTTP call is the oracle `pages`; requested page numbers are
recorded in `reqs`), stop on an empty page, append the filtered records, stop
when the target is reached, on a short page (fewer than 100 records), or past
the 50-page ceiling; the 200 ms politeness delay has no observable effect and
is not modelled. -/
def fetchLoop (pages : Nat → List RawCompany) (yearOf : String → Int) (maxResults : Nat)
    (page : Nat) (acc : List RawCompany) (reqs : List Nat) : List RawCompany × List Nat :=
  if acc.length < maxResults then
    if (pages page).length = 0 then (acc, reqs ++ [page])
    else
      if maxResults ≤ (acc ++ (pages page).filter (isValidCompany yearOf)).length then
        (acc ++ (pages page).filter (isValidCompany yearOf), reqs ++ [page])
      else if (pages page).length < 100 then
        (acc ++ (pages page).filter (isValidCompany yearOf), reqs ++ [page])
      else if _h : 50 < page + 1 then
        (acc ++ (pages page).filter (isValidCompany yearOf), reqs ++ [page])
      else fetchLoop pages yearOf maxResults (page + 1)
        (acc ++ (pages page).filter (isValidCompany yearOf)) (reqs ++ [page])
  else (acc, reqs)
termination_by 51 - page
decreasing_by omega

/-- `fetchCompaniesFromAPI`: run the pagination loop from page 1, return `[]`
when nothing accumulated, else truncate to `maxResults` and normalize each
record. -/
def fetchCompaniesFromAPI (pages : Nat → List RawCompany) (yearOf : String → Int)
    (classifications : List (String × ClassificationEntry)) (translateFn : String → String)
    (maxResults : Nat) : List Company :=
  if (fetchLoop pages yearOf maxResults 1 [] []).1.length = 0 then []
  else ((fetchLoop pages yearOf maxResults 1 [] []).1.take maxResults).map
    (processCompany classifications translateFn)

/-- Generalized request-count bound for the pagination loop: entered at a page
of the 1–50 window, the loop adds at most `51 - page` requests. -/
theorem fetchLoop_reqs_bound (pages : Nat → List RawCompany) (yearOf : String → Int)
    (maxResults : Nat) :
    ∀ n page acc reqs, 51 - page = n → page ≤ 50 →
      (fetchLoop pages yearOf maxResults page acc reqs).2.length ≤
        reqs.length + (51 - page) := by
  intro n
  induction n with
  | zero =>
    intro page acc reqs hn hp
    omega
  | succ m ih =>
    intro page acc reqs hn hp
    unfold fetchLoop
    split_ifs with h1 h2 h3 h4 h5 <;> try (first | (simp; omega) | simp)
    have hrec := ih (page + 1) (acc ++ (pages page).filter (isValidCompany yearOf))
      (reqs ++ [page]) (by omega) (by omega)
    simp at hrec ⊢
    omega

/-- Generalized accumulator invariant for the pagination loop: every record the
loop adds comes from a page filtered by `isValidCompany`. -/
theorem fetchLoop_acc_inv (pages : Nat → List RawCompany) (yearOf : String → Int)
    (maxResults : Nat) :
    ∀ n page acc reqs, 51 - page = n → page ≤ 50 →
      (∀ r ∈ acc, isValidCompany yearOf r = true) →
      ∀ r ∈ (fetchLoop pages yearOf maxResults page acc reqs).1,
        isValidCompany yearOf r = true := by
  intro n
  induction n with
  | zero =>
    intro page acc reqs hn hp
    omega
  | succ m ih =>
    intro page acc reqs hn hp hacc
    unfold fetchLoop
    split_ifs with h1 h2 h3 h4 h5 <;> intro r hr
    · exact hacc r (by simpa using hr)
    · simp at hr
      rcases hr with hr | hr
      · exact hacc r hr
      · exact hr.2
    · simp at hr
      rcases hr with hr | hr
      · exact hacc r hr
      · exact hr.2
    · simp at hr
      rcases hr with hr | hr
      · exact hacc r hr
      · exact hr.2
    · refine ih (page + 1) _ (reqs ++ [page]) (by omega) (by omega) ?_ r hr
      intro x hx
      simp at hx
      rcases hx with hx | hx
      · exact hacc x hx
      · exact hx.2
    · exact hacc r (by simpa using hr)

/-! ### Source adapter theorems (claims C4, C5) -/

/-- Claim C4: the pagination loop stops immediately (issuing no request) once
the accumulated filtered records reach the target; from page 1 it issues at
most 50 requests (the page ceiling); a page with fewer than 100 records is the
last request; and the final result is truncated to the target — never more
than `maxResults` entities, and exactly `maxResults` when the accumulation
reached it. -/
theorem fetch_pagination_termination (pages : Nat → List RawCompany)
    (yearOf : String → Int) (classifications : List (String × ClassificationEntry))
    (translateFn : String → String) (maxResults : Nat) :
    (∀ page acc reqs, maxResults ≤ acc.length →
      fetchLoop pages yearOf maxResults page acc reqs = (acc, reqs)) ∧
    ((fetchLoop pages yearOf maxResults 1 [] []).2.length ≤ 50) ∧
    (∀ page acc reqs, (pages page).length < 100 →
      (fetchLoop pages yearOf maxResults page acc reqs).2.length ≤ reqs.length + 1) ∧
    ((fetchCompaniesFromAPI pages yearOf classifications translateFn maxResults).length ≤
      maxResults) ∧
    (maxResults ≤ (fetchLoop pages yearOf maxResults 1 [] []).1.length →
      (fetchCompaniesFromAPI pages yearOf classifications translateFn maxResults).length =
        maxResults) := by
  refine ⟨?_, ?_, ?_, ?_, ?_⟩
  · intro page acc reqs h
    unfold fetchLoop
    rw [if_neg (by omega)]
  · have := fetchLoop_reqs_bound pages yearOf maxResults 50 1 [] [] (by omega) (by omega)
    simpa using this
  · intro page acc reqs hshort
    unfold fetchLoop
    split_ifs <;> simp_all
  · unfold fetchCompaniesFromAPI
    split_ifs with h
    · simp
    · simp [List.length_take]
  · intro h
    unfold fetchCompaniesFromAPI
    split_ifs with hz
    · simp
      omega
    · simp [List.length_take]
      omega

/-- Witness for C4: with an empty listing service and target 0 the loop stops
without issuing a request, and the fetch result never exceeds the target 5. -/
theorem fetch_pagination_termination_witness :
    fetchLoop (fun _ => []) (fun _ => 2021) 0 1 [] [] = ([], []) ∧
    (fetchCompaniesFromAPI (fun _ => []) (fun _ => 2021) [] (fun s => s) 5).length ≤ 5 :=
  ⟨(fetch_pagination_termination (fun _ => []) (fun _ => 2021) [] (fun s => s) 0).1
      1 [] [] (by simp),
   (fetch_pagination_termination (fun _ => []) (fun _ => 2021) [] (fun s => s) 5).2.2.2.1⟩

/-- Claim C5: every entity returned by the registry fetch is the normalization
of a raw record whose registration year is at least 2020 and whose industry
classification code is present; the accumulated list from which the result is
taken contains only records passing both conditions, so records failing either
one are excluded. -/
theorem fetch_filter_conditions (pages : Nat → List RawCompany) (yearOf : String → Int)
    (classifications : List (String × ClassificationEntry)) (translateFn : String → String)
    (maxResults : Nat) :
    (∀ r ∈ (fetchLoop pages yearOf maxResults 1 [] []).1,
      2020 ≤ companyRegYear yearOf r ∧ hasIndustryCodeOf r = true) ∧
    (∀ e ∈ fetchCompaniesFromAPI pages yearOf classifications translateFn maxResults,
      ∃ r, (2020 ≤ companyRegYear yearOf r ∧ hasIndustryCodeOf r = true) ∧
        e = processCompany classifications translateFn r) := by
  have hvalid : ∀ r ∈ (fetchLoop pages yearOf maxResults 1 [] []).1,
      isValidCompany yearOf r = true :=
    fetchLoop_acc_inv pages yearOf maxResults 50 1 [] [] (by omega) (by omega) (by simp)
  have hdecode : ∀ r, isValidCompany yearOf r = true →
      2020 ≤ companyRegYear yearOf r ∧ hasIndustryCodeOf r = true := by
    intro r h
    simpa [isValidCompany] using h
  refine ⟨fun r hr => hdecode r (hvalid r hr), ?_⟩
  intro e he
  unfold fetchCompaniesFromAPI at he
  split_ifs at he with hz
  · simp at he
  · obtain ⟨r, hr, hre⟩ := List.mem_map.mp he
    exact ⟨r, hdecode r (hvalid r (List.take_subset _ _ hr)), hre.symm⟩

/-- A raw registry record passing both filters (year 2021, industry code). -/
def sampleRaw1 : RawCompany :=
  RawCompany.mk (some (BusinessIdField.objVal (some "1234567-8") (some "2021-05-01"))) none
    [CompanyNameEntry.mk "1" none (some "Firma Yks Oy")]
    (some (MainBusinessLine.mk (some "62010") (some [BusinessLineDescription.mk "3" (some "Software")])))
    []

/-- A second raw record passing both filters. -/
def sampleRaw2 : RawCompany :=
  RawCompany.mk (some (BusinessIdField.objVal (some "7654321-8") (some "2022-01-02"))) none
    [CompanyNameEntry.mk "1" none (some "Firma Kaks Oy")]
    (some (MainBusinessLine.mk (some "43210") none))
    []

/-- A raw record with no industry classification code (fails the filter). -/
def sampleRaw3 : RawCompany :=
  RawCompany.mk (some (BusinessIdField.objVal (some "1111111-1") (some "2023-03-03"))) none
    [CompanyNameEntry.mk "1" none (some "Firma Kolme Oy")]
    none
    []

/-- A one-page listing service returning the three sample records. -/
def samplePages : Nat → List RawCompany :=
  fun p => if p = 1 then [sampleRaw1, sampleRaw2, sampleRaw3] else []

/-- Witness for C5 (the spec's end-to-end scenario): of three raw records —
two matching both filters, one with no industry code — the fetch returns
normalizations of records satisfying both conditions. -/
theorem fetch_filter_conditions_witness :
    ∃ r, (2020 ≤ companyRegYear (fun _ => 2021) r ∧ hasIndustryCodeOf r = true) ∧
      processCompany [] (fun s => s) sampleRaw1 = processCompany [] (fun s => s) r := by
  have hfilter : List.filter (isValidCompany (fun _ => 2021))
      [sampleRaw1, sampleRaw2, sampleRaw3] = [sampleRaw1, sampleRaw2] := by decide
  have hloop : fetchLoop samplePages (fun _ => 2021) 500 1 [] [] =
      ([sampleRaw1, sampleRaw2], [1]) := by
    unfold fetchLoop
    simp [samplePages, hfilter]
  refine (fetch_filter_conditions samplePages (fun _ => 2021) [] (fun s => s) 500).2 _ ?_
  unfold fetchCompaniesFromAPI
  rw [hloop]
  simp

/-! ### Address composition: auxiliary list lemmas (claim C8) -/

/-- A "clean" address part: no whitespace and no comma in its characters. -/
def tokenList (l : List Char) : Prop :=
  ∀ c ∈ l, jsWhitespace c = false ∧ c ≠ ','

theorem dropWhile_append_of_ne_nil {p : Char → Bool} {xs : List Char} (ys : List Char)
    (h : xs.dropWhile p ≠ []) :
    (xs ++ ys).dropWhile p = xs.dropWhile p ++ ys := by
  induction xs with
  | nil => simp at h
  | cons a t ih =>
    by_cases ha : p a
    · rw [List.cons_append, List.dropWhile_cons, if_pos ha,
        ih (by simpa [List.dropWhile_cons, ha] using h)]
      simp [List.dropWhile_cons, ha]
    · simp [List.dropWhile_cons, ha]

theorem rdropWhile_append_of_ne_nil {p : Char → Bool} (xs : List Char) {ys : List Char}
    (h : ys.rdropWhile p ≠ []) :
    (xs ++ ys).rdropWhile p = xs ++ ys.rdropWhile p := by
  have h2 : ys.reverse.dropWhile p ≠ [] := by
    intro hcon
    apply h
    simp [List.rdropWhile, hcon]
  simp only [List.rdropWhile, List.reverse_append]
  rw [dropWhile_append_of_ne_nil _ h2]
  simp

theorem rdropWhile_eq_self_of_getLast? {p : Char → Bool} {l : List Char} {c : Char}
    (h : l.getLast? = some c) (hc : p c = false) : l.rdropWhile p = l := by
  rw [List.rdropWhile_eq_self_iff]
  intro hl
  rw [List.getLast?_eq_getLast l hl] at h
  simp only [Option.some.injEq] at h
  rw [h, hc]
  simp

theorem dropWhile_eq_self_of_head? {p : Char → Bool} {l : List Char} {c : Char}
    (h : l.head? = some c) (hc : p c = false) : l.dropWhile p = l := by
  cases l with
  | nil => rfl
  | cons a t =>
    simp only [List.head?_cons, Option.some.injEq] at h
    rw [List.dropWhile_cons, h, hc]
    simp

theorem head?_dropWhile_not {p : Char → Bool} {l : List Char} {c : Char}
    (h : (l.dropWhile p).head? = some c) : p c = false := by
  induction l with
  | nil => simp at h
  | cons a t ih =>
    rw [List.dropWhile_cons] at h
    by_cases ha : p a
    · exact ih (by simpa [ha] using h)
    · rw [if_neg ha] at h
      simp only [List.head?_cons, Option.some.injEq] at h
      rw [h] at ha
      simpa using ha

@[simp]
theorem jsWhitespace_space : jsWhitespace ' ' = true := rfl

@[simp]
theorem jsWhitespace_comma : jsWhitespace ',' = false := rfl

theorem getLast?_append_right (l1 : List Char) {l2 : List Char} (h : l2 ≠ []) :
    (l1 ++ l2).getLast? = l2.getLast? := by
  obtain ⟨b, L, rfl⟩ := List.exists_cons_of_ne_nil h
  rw [List.getLast?_append]
  cases hg : (b :: L).getLast? with
  | none => simp at hg
  | some c => rfl

theorem head?_append_left {l1 : List Char} (l2 : List Char) (h : l1 ≠ []) :
    (l1 ++ l2).head? = l1.head? := by
  obtain ⟨b, L, rfl⟩ := List.exists_cons_of_ne_nil h
  rfl

theorem exists_getLast?_of_ne_nil {l : List Char} (h : l ≠ []) :
    ∃ c, l.getLast? = some c := by
  obtain ⟨b, L, rfl⟩ := List.exists_cons_of_ne_nil h
  exact ⟨(b :: L).getLast (by simp), List.getLast?_eq_getLast _ _⟩

theorem exists_head?_of_ne_nil {l : List Char} (h : l ≠ []) :
    ∃ c, l.head? = some c := by
  obtain ⟨b, L, rfl⟩ := List.exists_cons_of_ne_nil h
  exact ⟨b, rfl⟩

theorem stripLeading_of_head {l : List Char} {c : Char} (h : l.head? = some c)
    (hc : c ≠ ',') : stripLeadingCommaWs l = l := by
  cases l with
  | nil => rfl
  | cons a t =>
    simp only [List.head?_cons, Option.some.injEq] at h
    subst h
    simp [stripLeadingCommaWs, hc]

theorem stripLeading_comma_cons (t : List Char) :
    stripLeadingCommaWs (',' :: t) = t.dropWhile jsWhitespace := by
  simp [stripLeadingCommaWs]

theorem stripTrailing_eq_self {l : List Char} {c : Char} (h : l.getLast? = some c)
    (hws : jsWhitespace c = false) (hc : c ≠ ',') : stripTrailingCommaWs l = l := by
  unfold stripTrailingCommaWs
  rw [rdropWhile_eq_self_of_getLast? h hws, h]
  split
  · next heq =>
    rw [Option.some.injEq] at heq
    exact absurd heq hc
  · rfl

theorem stripTrailing_comma {l : List Char} (h : l.getLast? = some ',') :
    stripTrailingCommaWs l = l.dropLast := by
  unfold stripTrailingCommaWs
  rw [rdropWhile_eq_self_of_getLast? h (by simp), h]
  rfl

theorem tokenList_append {l1 l2 : List Char} (h1 : tokenList l1) (h2 : tokenList l2) :
    tokenList (l1 ++ l2) := by
  intro c hc
  rcases List.mem_append.mp hc with h | h
  · exact h1 c h
  · exact h2 c h

theorem tokenList_getLast? {l : List Char} {c : Char} (h : tokenList l)
    (hc : l.getLast? = some c) : jsWhitespace c = false ∧ c ≠ ',' :=
  h c (List.mem_of_mem_getLast? hc)

theorem tokenList_head? {l : List Char} {c : Char} (h : tokenList l)
    (hc : l.head? = some c) : jsWhitespace c = false ∧ c ≠ ',' :=
  h c (List.mem_of_mem_head? hc)

theorem stripLeading_suffix (l : List Char) : stripLeadingCommaWs l <:+ l := by
  cases l with
  | nil => exact List.suffix_refl _
  | cons a t =>
    by_cases ha : a = ','
    · simp only [stripLeadingCommaWs, if_pos ha]
      exact (List.dropWhile_suffix _).trans (List.suffix_cons a t)
    · simp only [stripLeadingCommaWs, if_neg ha]
      exact List.suffix_refl _

theorem stripTrailing_front (l : List Char) : stripTrailingCommaWs l <+: l := by
  unfold stripTrailingCommaWs
  split
  · exact (List.dropLast_prefix _).trans (List.rdropWhile_prefix _ _)
  · exact List.prefix_refl _

theorem jsTrim_within (l : List Char) : jsTrim l <:+: l :=
  (List.rdropWhile_prefix _ _).isInfix.trans (List.dropWhile_suffix _).isInfix

theorem cleanupAddr_sublist (l : List Char) : (cleanupAddr l).Sublist l :=
  ((stripTrailing_front _).sublist.trans
    (stripLeading_suffix _).sublist).trans (jsTrim_within l).sublist

theorem count_le_one_chain (a : Char) (l : List Char) (h : l.count a ≤ 1) :
    List.Chain' (fun x y => x ≠ a ∨ y ≠ a) l := by
  induction l with
  | nil => simp
  | cons x t ih =>
    rw [List.chain'_cons']
    have hcount : t.count a ≤ 1 := le_trans (by simp [List.count_cons]) h
    refine ⟨?_, ih hcount⟩
    intro y hy
    by_cases hx : x = a
    · right
      intro hya
      have hmem : y ∈ t := List.mem_of_mem_head? hy
      rw [hya] at hmem
      rw [hx, List.count_cons_self] at h
      have h1 : 1 ≤ t.count a := List.count_pos_iff.mpr hmem
      omega
    · exact Or.inl hx

theorem chainWs_of_token {l : List Char} (hl : tokenList l) :
    List.Chain' (fun a b => jsWhitespace a = false ∨ jsWhitespace b = false) l := by
  induction l with
  | nil => simp
  | cons x t ih =>
    rw [List.chain'_cons']
    exact ⟨fun y _ => Or.inl (hl x (by simp)).1,
      ih (fun c hc => hl c (List.mem_cons_of_mem x hc))⟩

theorem getLast?_append_cases (A B : List Char) :
    (A ++ B).getLast? = if B = [] then A.getLast? else B.getLast? := by
  by_cases h : B = []
  · simp [h]
  · rw [if_neg h, getLast?_append_right _ h]

theorem getLast?_of_suffix {l1 l2 : List Char} (h : l1 <:+ l2) (hne : l1 ≠ []) :
    l1.getLast? = l2.getLast? := by
  obtain ⟨t, rfl⟩ := h
  rw [getLast?_append_right _ hne]

theorem data_eq_nil_iff (s : String) : s.data = [] ↔ s = "" := by
  constructor
  · intro h
    apply String.ext
    exact h
  · intro h
    rw [h]

theorem jsStrTruthy_getD {o : Option String} (h : jsStrTruthy o = true) :
    (o.getD "").data ≠ [] := by
  cases o with
  | none => simp [jsStrTruthy] at h
  | some s =>
    simp only [jsStrTruthy, ne_eq, decide_eq_true_eq] at h
    simpa [data_eq_nil_iff] using h

theorem strData_append (s t : String) : (s ++ t).data = s.data ++ t.data := rfl

theorem join_filter_data (a b c d : String) :
    (String.join ([a, b, c, d].filter (fun part => part ≠ ""))).data =
      a.data ++ (b.data ++ (c.data ++ d.data)) := by
  have hone : ∀ s : String, s = "" → s.data = [] := by
    intro s hs
    rw [hs]
  by_cases ha : a = "" <;> by_cases hb : b = "" <;> by_cases hc : c = "" <;>
    by_cases hd : d = "" <;>
    simp [ha, hb, hc, hd, String.join_eq, hone, strData_append]

/-- Closed form of the address cleanup on the template
`parts ++ ", " ++ postCode ++ " " ++ city` for clean parts: the result in each
of the eight emptiness configurations of the three template slots. -/
theorem cleanupAddr_explicit (P pc ct : List Char)
    (hPcomma : ∀ c ∈ P, c ≠ ',')
    (hPlast : ∀ c, P.getLast? = some c → jsWhitespace c = false)
    (hPdw : P ≠ [] → P.dropWhile jsWhitespace ≠ [])
    (hpc : tokenList pc) (hct : tokenList ct) :
    cleanupAddr (P ++ ',' :: ' ' :: (pc ++ ' ' :: ct)) =
      if P = [] then
        (if pc = [] then (if ct = [] then [] else ct)
         else pc ++ (if ct = [] then [] else ' ' :: ct))
      else
        P.dropWhile jsWhitespace ++
          (if pc = [] then (if ct = [] then [] else ',' :: ' ' :: ' ' :: ct)
           else ',' :: ' ' :: (pc ++ (if ct = [] then [] else ' ' :: ct))) := by
  have hdwsub : ∀ c ∈ P.dropWhile jsWhitespace, c ∈ P :=
    fun c hc => (List.dropWhile_suffix _).sublist.subset hc
  by_cases hP : P = []
  · subst hP
    by_cases hpcn : pc = []
    · subst hpcn
      by_cases hctn : ct = []
      · subst hctn
        rfl
      · obtain ⟨cl, hcl⟩ := exists_getLast?_of_ne_nil hctn
        obtain ⟨ch, hch⟩ := exists_head?_of_ne_nil hctn
        have hclt := tokenList_getLast? hct hcl
        have hcht := tokenList_head? hct hch
        simp only [cleanupAddr, jsTrim, List.nil_append]
        have h1 : (',' :: ' ' :: ' ' :: ct).dropWhile jsWhitespace =
            ',' :: ' ' :: ' ' :: ct :=
          dropWhile_eq_self_of_head? rfl (by simp)
        have hg : (',' :: ' ' :: ' ' :: ct).getLast? = some cl := by
          show (([',', ' ', ' '] : List Char) ++ ct).getLast? = some cl
          rw [getLast?_append_right _ hctn, hcl]
        have h2 := rdropWhile_eq_self_of_getLast? hg hclt.1
        rw [h1, h2, stripLeading_comma_cons]
        have h3 : (' ' :: ' ' :: ct).dropWhile jsWhitespace = ct := by
          rw [List.dropWhile_cons, if_pos (by simp), List.dropWhile_cons, if_pos (by simp)]
          exact dropWhile_eq_self_of_head? hch hcht.1
        rw [h3, stripTrailing_eq_self hcl hclt.1 hclt.2]
        simp [hctn]
    · obtain ⟨cp, hcp⟩ := exists_getLast?_of_ne_nil hpcn
      obtain ⟨dp, hdp⟩ := exists_head?_of_ne_nil hpcn
      have hcpt := tokenList_getLast? hpc hcp
      have hdpt := tokenList_head? hpc hdp
      by_cases hctn : ct = []
      · subst hctn
        simp only [cleanupAddr, jsTrim, List.nil_append]
        have h1 : (',' :: ' ' :: (pc ++ [' '])).dropWhile jsWhitespace =
            ',' :: ' ' :: (pc ++ [' ']) :=
          dropWhile_eq_self_of_head? rfl (by simp)
        have hre : ',' :: ' ' :: (pc ++ [' ']) = (',' :: ' ' :: pc) ++ [' '] := by simp
        have hg : (',' :: ' ' :: pc).getLast? = some cp := by
          show (([',', ' '] : List Char) ++ pc).getLast? = some cp
          rw [getLast?_append_right _ hpcn, hcp]
        have h2 : (',' :: ' ' :: (pc ++ [' '])).rdropWhile jsWhitespace =
            ',' :: ' ' :: pc := by
          rw [hre, List.rdropWhile_concat_pos _ _ _ (by simp)]
          exact rdropWhile_eq_self_of_getLast? hg hcpt.1
        rw [h1, h2, stripLeading_comma_cons]
        have h3 : (' ' :: pc).dropWhile jsWhitespace = pc := by
          rw [List.dropWhile_cons, if_pos (by simp)]
          exact dropWhile_eq_self_of_head? hdp hdpt.1
        rw [h3, stripTrailing_eq_self hcp hcpt.1 hcpt.2]
        simp [hpcn]
      · obtain ⟨cl, hcl⟩ := exists_getLast?_of_ne_nil hctn
        have hclt := tokenList_getLast? hct hcl
        simp only [cleanupAddr, jsTrim, List.nil_append]
        have h1 : (',' :: ' ' :: (pc ++ ' ' :: ct)).dropWhile jsWhitespace =
            ',' :: ' ' :: (pc ++ ' ' :: ct) :=
          dropWhile_eq_self_of_head? rfl (by simp)
        have hg : (',' :: ' ' :: (pc ++ ' ' :: ct)).getLast? = some cl := by
          show (([',', ' '] : List Char) ++ (pc ++ ' ' :: ct)).getLast? = some cl
          rw [getLast?_append_right _ (by simp), getLast?_append_right _ (by simp)]
          show (([' '] : List Char) ++ ct).getLast? = some cl
          rw [getLast?_append_right _ hctn, hcl]
        have h2 := rdropWhile_eq_self_of_getLast? hg hclt.1
        rw [h1, h2, stripLeading_comma_cons]
        have h3 : (' ' :: (pc ++ ' ' :: ct)).dropWhile jsWhitespace = pc ++ ' ' :: ct := by
          rw [List.dropWhile_cons, if_pos (by simp)]
          exact dropWhile_eq_self_of_head?
            (by rw [head?_append_left _ hpcn, hdp]) hdpt.1
        have hg2 : (pc ++ ' ' :: ct).getLast? = some cl := by
          rw [getLast?_append_right _ (by simp)]
          show (([' '] : List Char) ++ ct).getLast? = some cl
          rw [getLast?_append_right _ hctn, hcl]
        rw [h3, stripTrailing_eq_self hg2 hclt.1 hclt.2]
        simp [hpcn, hctn]
  · have hdw := hPdw hP
    obtain ⟨d, hd⟩ := exists_head?_of_ne_nil hdw
    have hdws : jsWhitespace d = false := head?_dropWhile_not hd
    have hdc : d ≠ ',' := hPcomma d (hdwsub d (List.mem_of_mem_head? hd))
    by_cases hpcn : pc = []
    · subst hpcn
      by_cases hctn : ct = []
      · subst hctn
        simp only [cleanupAddr, jsTrim, List.nil_append]
        have h1 := dropWhile_append_of_ne_nil (p := jsWhitespace)
          [',', ' ', ' '] hdw
        have hre : P.dropWhile jsWhitespace ++ [',', ' ', ' '] =
            ((P.dropWhile jsWhitespace ++ [',']) ++ [' ']) ++ [' '] := by simp
        have hgc : (P.dropWhile jsWhitespace ++ [',']).getLast? = some ',' := by
          rw [getLast?_append_right _ (by simp)]
          rfl
        have h2 : (P.dropWhile jsWhitespace ++ [',', ' ', ' ']).rdropWhile jsWhitespace =
            P.dropWhile jsWhitespace ++ [','] := by
          rw [hre, List.rdropWhile_concat_pos _ _ _ (by simp),
            List.rdropWhile_concat_pos _ _ _ (by simp)]
          exact rdropWhile_eq_self_of_getLast? hgc (by simp)
        have h3 : stripLeadingCommaWs (P.dropWhile jsWhitespace ++ [',']) =
            P.dropWhile jsWhitespace ++ [','] :=
          stripLeading_of_head (by rw [head?_append_left _ hdw, hd]) hdc
        have h4 : stripTrailingCommaWs (P.dropWhile jsWhitespace ++ [',']) =
            P.dropWhile jsWhitespace := by
          rw [stripTrailing_comma hgc, List.dropLast_concat]
        rw [h1, h2, h3, h4]
        simp [hP]
      · obtain ⟨cl, hcl⟩ := exists_getLast?_of_ne_nil hctn
        have hclt := tokenList_getLast? hct hcl
        simp only [cleanupAddr, jsTrim, List.nil_append]
        have h1 := dropWhile_append_of_ne_nil (p := jsWhitespace)
          (',' :: ' ' :: ' ' :: ct) hdw
        have hg : (P.dropWhile jsWhitespace ++ ',' :: ' ' :: ' ' :: ct).getLast? =
            some cl := by
          rw [getLast?_append_right _ (by simp)]
          show (([',', ' ', ' '] : List Char) ++ ct).getLast? = some cl
          rw [getLast?_append_right _ hctn, hcl]
        have h2 := rdropWhile_eq_self_of_getLast? hg hclt.1
        have h3 : stripLeadingCommaWs (P.dropWhile jsWhitespace ++ ',' :: ' ' :: ' ' :: ct) =
            P.dropWhile jsWhitespace ++ ',' :: ' ' :: ' ' :: ct :=
          stripLeading_of_head (by rw [head?_append_left _ hdw, hd]) hdc
        have h4 := stripTrailing_eq_self hg hclt.1 hclt.2
        rw [h1, h2, h3, h4]
        simp [hP, hctn]
    · obtain ⟨cp, hcp⟩ := exists_getLast?_of_ne_nil hpcn
      have hcpt := tokenList_getLast? hpc hcp
      by_cases hctn : ct = []
      · subst hctn
        simp only [cleanupAddr, jsTrim]
        have h1 := dropWhile_append_of_ne_nil (p := jsWhitespace)
          (',' :: ' ' :: (pc ++ [' '])) hdw
        have hre : P.dropWhile jsWhitespace ++ ',' :: ' ' :: (pc ++ [' ']) =
            (P.dropWhile jsWhitespace ++ ',' :: ' ' :: pc) ++ [' '] := by simp
        have hg : (P.dropWhile jsWhitespace ++ ',' :: ' ' :: pc).getLast? = some cp := by
          rw [getLast?_append_right _ (by simp)]
          show (([',', ' '] : List Char) ++ pc).getLast? = some cp
          rw [getLast?_append_right _ hpcn, hcp]
        have h2 : (P.dropWhile jsWhitespace ++ ',' :: ' ' :: (pc ++ [' '])).rdropWhile
            jsWhitespace = P.dropWhile jsWhitespace ++ ',' :: ' ' :: pc := by
          rw [hre, List.rdropWhile_concat_pos _ _ _ (by simp)]
          exact rdropWhile_eq_self_of_getLast? hg hcpt.1
        have h3 : stripLeadingCommaWs (P.dropWhile jsWhitespace ++ ',' :: ' ' :: pc) =
            P.dropWhile jsWhitespace ++ ',' :: ' ' :: pc :=
          stripLeading_of_head (by rw [head?_append_left _ hdw, hd]) hdc
        have h4 := stripTrailing_eq_self hg hcpt.1 hcpt.2
        rw [h1, h2, h3, h4]
        simp [hP, hpcn]
      · obtain ⟨cl, hcl⟩ := exists_getLast?_of_ne_nil hctn
        have hclt := tokenList_getLast? hct hcl
        simp only [cleanupAddr, jsTrim]
        have h1 := dropWhile_append_of_ne_nil (p := jsWhitespace)
          (',' :: ' ' :: (pc ++ ' ' :: ct)) hdw
        have hg : (P.dropWhile jsWhitespace ++ ',' :: ' ' :: (pc ++ ' ' :: ct)).getLast? =
            some cl := by
          rw [getLast?_append_right _ (by simp)]
          show (([',', ' '] : List Char) ++ (pc ++ ' ' :: ct)).getLast? = some cl
          rw [getLast?_append_right _ (by simp), getLast?_append_right _ (by simp)]
          show (([' '] : List Char) ++ ct).getLast? = some cl
          rw [getLast?_append_right _ hctn, hcl]
        have h2 := rdropWhile_eq_self_of_getLast? hg hclt.1
        have h3 : stripLeadingCommaWs
            (P.dropWhile jsWhitespace ++ ',' :: ' ' :: (pc ++ ' ' :: ct)) =
            P.dropWhile jsWhitespace ++ ',' :: ' ' :: (pc ++ ' ' :: ct) :=
          stripLeading_of_head (by rw [head?_append_left _ hdw, hd]) hdc
        have h4 := stripTrailing_eq_self hg hclt.1 hclt.2
        rw [h1, h2, h3, h4]
        simp [hP, hpcn, hctn]

/-- Character list of the `addressParts` string of `composeAddress`. -/
def addressPartsData (v : VisitingAddress) : List Char :=
  (jsStrGetD v.street).data ++ ((jsStrGetD v.buildingNumber).data ++
  ((if jsStrTruthy v.entrance then ' ' :: (v.entrance.getD "").data else []) ++
  (if jsStrTruthy v.apartmentNumber then ' ' :: (v.apartmentNumber.getD "").data else [])))

theorem data_if_space (b : Bool) (s : String) :
    (if b = true then " " ++ s else "").data = if b = true then ' ' :: s.data else [] := by
  cases b <;> rfl

theorem data_mk (l : List Char) : (String.mk l).data = l := rfl

/-- `composeAddress` in terms of `cleanupAddr` over plain character lists. -/
theorem composeAddress_data (v : VisitingAddress) :
    (composeAddress v).data = cleanupAddr (addressPartsData v ++ ',' :: ' ' ::
      ((jsStrGetD v.postCode).data ++ ' ' :: (extractCity v.postOffices).data)) := by
  simp only [composeAddress, data_mk]
  congr 1
  rw [strData_append, strData_append, strData_append, strData_append, join_filter_data,
    data_if_space, data_if_space]
  show _ ++ [',', ' '] ++ _ ++ [' '] ++ _ = _
  simp [addressPartsData]

/-- The parts string of a clean visiting address: comma-free, with a
non-whitespace last character, a non-whitespace character surviving
`dropWhile` when nonempty, and no two adjacent whitespace characters. -/
theorem addressPartsData_facts (v : VisitingAddress)
    (hst : tokenList (jsStrGetD v.street).data)
    (hbn : tokenList (jsStrGetD v.buildingNumber).data)
    (hent : tokenList (v.entrance.getD "").data)
    (hapt : tokenList (v.apartmentNumber.getD "").data) :
    (∀ c ∈ addressPartsData v, c ≠ ',') ∧
    (∀ c, (addressPartsData v).getLast? = some c → jsWhitespace c = false) ∧
    (addressPartsData v ≠ [] → (addressPartsData v).dropWhile jsWhitespace ≠ []) ∧
    List.Chain' (fun a b => jsWhitespace a = false ∨ jsWhitespace b = false)
      (addressPartsData v) := by
  set st := (jsStrGetD v.street).data with hstdef
  set bn := (jsStrGetD v.buildingNumber).data with hbndef
  set entL := (if jsStrTruthy v.entrance then ' ' :: (v.entrance.getD "").data else [])
    with hentdef
  set aptL := (if jsStrTruthy v.apartmentNumber then ' ' :: (v.apartmentNumber.getD "").data
    else []) with haptdef
  have hPdefn : addressPartsData v = st ++ (bn ++ (entL ++ aptL)) := by
    rw [addressPartsData]
  have hentcomma : ∀ c ∈ entL, c ≠ ',' := by
    intro c hc
    rw [hentdef] at hc
    split at hc
    · rcases List.mem_cons.mp hc with h | h
      · rw [h]
        simp
      · exact (hent c h).2
    · simp at hc
  have haptcomma : ∀ c ∈ aptL, c ≠ ',' := by
    intro c hc
    rw [haptdef] at hc
    split at hc
    · rcases List.mem_cons.mp hc with h | h
      · rw [h]
        simp
      · exact (hapt c h).2
    · simp at hc
  have hentlast : ∀ c, entL.getLast? = some c → jsWhitespace c = false := by
    intro c hc
    rw [hentdef] at hc
    split at hc
    · next htr =>
      have hne := jsStrTruthy_getD htr
      rw [show ' ' :: (v.entrance.getD "").data = [' '] ++ (v.entrance.getD "").data from rfl,
        getLast?_append_right _ hne] at hc
      exact (tokenList_getLast? hent hc).1
    · simp at hc
  have haptlast : ∀ c, aptL.getLast? = some c → jsWhitespace c = false := by
    intro c hc
    rw [haptdef] at hc
    split at hc
    · next htr =>
      have hne := jsStrTruthy_getD htr
      rw [show ' ' :: (v.apartmentNumber.getD "").data = [' '] ++ (v.apartmentNumber.getD "").data
        from rfl, getLast?_append_right _ hne] at hc
      exact (tokenList_getLast? hapt hc).1
    · simp at hc
  have hcomma : ∀ c ∈ addressPartsData v, c ≠ ',' := by
    intro c hc
    rw [hPdefn] at hc
    simp only [List.mem_append] at hc
    rcases hc with h | h | h | h
    · exact (hst c h).2
    · exact (hbn c h).2
    · exact hentcomma c h
    · exact haptcomma c h
  have hlast : ∀ c, (addressPartsData v).getLast? = some c → jsWhitespace c = false := by
    intro c hc
    rw [hPdefn,
      show st ++ (bn ++ (entL ++ aptL)) = ((st ++ bn) ++ entL) ++ aptL by simp] at hc
    rw [getLast?_append_cases, getLast?_append_cases, getLast?_append_cases] at hc
    split_ifs at hc with h1 h2 h3
    · exact (tokenList_getLast? hst hc).1
    · exact (tokenList_getLast? hbn hc).1
    · exact hentlast c hc
    · exact haptlast c hc
  have hdw : addressPartsData v ≠ [] → (addressPartsData v).dropWhile jsWhitespace ≠ [] := by
    intro hne hdwnil
    rw [List.dropWhile_eq_nil_iff] at hdwnil
    have hstnil : st = [] := by
      cases hs : st with
      | nil => rfl
      | cons a t =>
        have h1 := hdwnil a (by rw [hPdefn, hs]; simp)
        have h2 := (hst a (by rw [hs]; simp)).1
        simp_all
    have hbnnil : bn = [] := by
      cases hs : bn with
      | nil => rfl
      | cons a t =>
        have h1 := hdwnil a (by rw [hPdefn, hs]; simp)
        have h2 := (hbn a (by rw [hs]; simp)).1
        simp_all
    have hentnil : entL = [] := by
      rw [hentdef]
      split
      · next htr =>
        obtain ⟨a, t, hat⟩ := List.exists_cons_of_ne_nil (jsStrTruthy_getD htr)
        have hmem : a ∈ addressPartsData v := by
          rw [hPdefn, hentdef, if_pos htr, hat]
          simp
        have h1 := hdwnil a hmem
        have h2 := (hent a (by rw [hat]; simp)).1
        simp_all
      · rfl
    have haptnil : aptL = [] := by
      rw [haptdef]
      split
      · next htr =>
        obtain ⟨a, t, hat⟩ := List.exists_cons_of_ne_nil (jsStrTruthy_getD htr)
        have hmem : a ∈ addressPartsData v := by
          rw [hPdefn, haptdef, if_pos htr, hat]
          simp
        have h1 := hdwnil a hmem
        have h2 := (hapt a (by rw [hat]; simp)).1
        simp_all
      · rfl
    apply hne
    rw [hPdefn, hstnil, hbnnil, hentnil, haptnil]
    rfl
  have hentchain : List.Chain' (fun a b => jsWhitespace a = false ∨ jsWhitespace b = false)
      entL := by
    rw [hentdef]
    split
    · rw [List.chain'_cons']
      refine ⟨?_, chainWs_of_token hent⟩
      intro y hy
      exact Or.inr (tokenList_head? hent hy).1
    · simp
  have haptchain : List.Chain' (fun a b => jsWhitespace a = false ∨ jsWhitespace b = false)
      aptL := by
    rw [haptdef]
    split
    · rw [List.chain'_cons']
      refine ⟨?_, chainWs_of_token hapt⟩
      intro y hy
      exact Or.inr (tokenList_head? hapt hy).1
    · simp
  have hchain : List.Chain' (fun a b => jsWhitespace a = false ∨ jsWhitespace b = false)
      (addressPartsData v) := by
    rw [hPdefn,
      show st ++ (bn ++ (entL ++ aptL)) = ((st ++ bn) ++ entL) ++ aptL by simp]
    rw [List.chain'_append]
    refine ⟨?_, haptchain, ?_⟩
    · rw [List.chain'_append]
      refine ⟨?_, hentchain, ?_⟩
      · rw [List.chain'_append]
        refine ⟨chainWs_of_token hst, chainWs_of_token hbn, ?_⟩
        intro x hx y _
        exact Or.inl (tokenList_getLast? hst hx).1
      · intro x hx y _
        rw [getLast?_append_cases] at hx
        split_ifs at hx
        · exact Or.inl (tokenList_getLast? hst hx).1
        · exact Or.inl (tokenList_getLast? hbn hx).1
    · intro x hx y _
      rw [getLast?_append_cases, getLast?_append_cases] at hx
      split_ifs at hx
      · exact Or.inl (tokenList_getLast? hst hx).1
      · exact Or.inl (tokenList_getLast? hbn hx).1
      · exact Or.inl (hentlast x hx)
  exact ⟨hcomma, hlast, hdw, hchain⟩

/-! ### Address composition theorems (claim C8) -/

/-- Counterexample to claim C8 as stated: with the postal code missing but the
city present, the composed address contains a double space — the claim's
concrete example differs from this input only in the missing postal code. -/
theorem compose_address_counterexample :
    composeAddress (VisitingAddress.mk 1 (some "Mannerheimintie") (some "10") none none none
      (some [PostOffice.mk "3" (some "Helsinki")])) = "Mannerheimintie10,  Helsinki" ∧
    [' ', ' '] <:+: ("Mannerheimintie10,  Helsinki" : String).data :=
  ⟨rfl, ⟨"Mannerheimintie10,".data, "Helsinki".data, by decide⟩⟩

/-- Claim C8 as amended: the normalizer composes the claim's concrete example
to `"Mannerheimintie10, 00100 Helsinki"`; and for every visiting address whose
parts are clean (no whitespace or comma characters), the composed address has
no double commas, no leading or trailing whitespace or comma — and no double
spaces provided the postal code is present or the city is absent (a missing
postal code together with a present city produces a double space). -/
theorem compose_address_properties (v : VisitingAddress)
    (hst : tokenList (jsStrGetD v.street).data)
    (hbn : tokenList (jsStrGetD v.buildingNumber).data)
    (hent : tokenList (v.entrance.getD "").data)
    (hapt : tokenList (v.apartmentNumber.getD "").data)
    (hpc : tokenList (jsStrGetD v.postCode).data)
    (hct : tokenList (extractCity v.postOffices).data) :
    composeAddress (VisitingAddress.mk 1 (some "Mannerheimintie") (some "10") none none
      (some "00100") (some [PostOffice.mk "3" (some "Helsinki")])) =
      "Mannerheimintie10, 00100 Helsinki" ∧
    List.Chain' (fun a b => a ≠ ',' ∨ b ≠ ',') (composeAddress v).data ∧
    (∀ c, (composeAddress v).data.head? = some c → jsWhitespace c = false ∧ c ≠ ',') ∧
    (∀ c, (composeAddress v).data.getLast? = some c → jsWhitespace c = false ∧ c ≠ ',') ∧
    ((jsStrGetD v.postCode ≠ "" ∨ extractCity v.postOffices = "") →
      List.Chain' (fun a b => jsWhitespace a = false ∨ jsWhitespace b = false)
        (composeAddress v).data) := by
  obtain ⟨hPcomma, hPlast, hPdw, hPchain⟩ := addressPartsData_facts v hst hbn hent hapt
  have hdata := composeAddress_data v
  have hexp := cleanupAddr_explicit (addressPartsData v) (jsStrGetD v.postCode).data
    (extractCity v.postOffices).data hPcomma hPlast hPdw hpc hct
  have hres := hdata.trans hexp
  have hdwhead : ∀ c, ((addressPartsData v).dropWhile jsWhitespace).head? = some c →
      jsWhitespace c = false ∧ c ≠ ',' :=
    fun c hc => ⟨head?_dropWhile_not hc,
      hPcomma c ((List.dropWhile_suffix _).sublist.subset (List.mem_of_mem_head? hc))⟩
  have hdwlast : ∀ c, ((addressPartsData v).dropWhile jsWhitespace).getLast? = some c →
      jsWhitespace c = false ∧ c ≠ ',' := by
    intro c hc
    have hne : (addressPartsData v).dropWhile jsWhitespace ≠ [] := by
      intro h
      rw [h] at hc
      simp at hc
    refine ⟨?_, hPcomma c ((List.dropWhile_suffix _).sublist.subset
      (List.mem_of_mem_getLast? hc))⟩
    rw [getLast?_of_suffix (List.dropWhile_suffix _) hne] at hc
    exact hPlast c hc
  have hdwchain : List.Chain' (fun a b => jsWhitespace a = false ∨ jsWhitespace b = false)
      ((addressPartsData v).dropWhile jsWhitespace) :=
    hPchain.suffix (List.dropWhile_suffix _)
  refine ⟨rfl, ?_, ?_, ?_, ?_⟩
  · have hsub : ((composeAddress v).data).Sublist (addressPartsData v ++ ',' :: ' ' ::
        ((jsStrGetD v.postCode).data ++ ' ' :: (extractCity v.postOffices).data)) := by
      rw [hdata]
      exact cleanupAddr_sublist _
    have hc0 : (addressPartsData v).count ',' = 0 :=
      List.count_eq_zero.mpr (fun hmem => hPcomma ',' hmem rfl)
    have hpc0 : ((jsStrGetD v.postCode).data).count ',' = 0 :=
      List.count_eq_zero.mpr (fun hmem => (hpc ',' hmem).2 rfl)
    have hct0 : ((extractCity v.postOffices).data).count ',' = 0 :=
      List.count_eq_zero.mpr (fun hmem => (hct ',' hmem).2 rfl)
    have hcount : (addressPartsData v ++ ',' :: ' ' ::
        ((jsStrGetD v.postCode).data ++ ' ' :: (extractCity v.postOffices).data)).count ',' =
        1 := by
      simp [List.count_append, List.count_cons, hc0, hpc0, hct0]
    exact count_le_one_chain ',' _ (le_trans (hsub.count_le ',') (le_of_eq hcount))
  · intro c hc
    rw [hres] at hc
    by_cases hP : addressPartsData v = [] <;>
      by_cases hpcn : (jsStrGetD v.postCode).data = [] <;>
      by_cases hctn : (extractCity v.postOffices).data = [] <;>
      simp only [hP, hpcn, hctn, eq_self_iff_true, if_true, if_false,
        List.append_nil] at hc
    · exact absurd hc (by simp)
    · exact tokenList_head? hct hc
    · exact tokenList_head? hpc hc
    · rw [head?_append_left _ hpcn] at hc
      exact tokenList_head? hpc hc
    · exact hdwhead c hc
    · rw [head?_append_left _ (hPdw hP)] at hc
      exact hdwhead c hc
    · rw [head?_append_left _ (hPdw hP)] at hc
      exact hdwhead c hc
    · rw [head?_append_left _ (hPdw hP)] at hc
      exact hdwhead c hc
  · intro c hc
    rw [hres] at hc
    by_cases hP : addressPartsData v = [] <;>
      by_cases hpcn : (jsStrGetD v.postCode).data = [] <;>
      by_cases hctn : (extractCity v.postOffices).data = [] <;>
      simp only [hP, hpcn, hctn, eq_self_iff_true, if_true, if_false,
        List.append_nil] at hc
    · exact absurd hc (by simp)
    · exact tokenList_getLast? hct hc
    · exact tokenList_getLast? hpc hc
    · rw [getLast?_append_right _ (by simp)] at hc
      rw [show (' ' :: (extractCity v.postOffices).data : List Char) =
        [' '] ++ (extractCity v.postOffices).data from rfl,
        getLast?_append_right _ hctn] at hc
      exact tokenList_getLast? hct hc
    · exact hdwlast c hc
    · rw [getLast?_append_right _ (by simp)] at hc
      rw [show (',' :: ' ' :: ' ' :: (extractCity v.postOffices).data : List Char) =
        [',', ' ', ' '] ++ (extractCity v.postOffices).data from rfl,
        getLast?_append_right _ hctn] at hc
      exact tokenList_getLast? hct hc
    · rw [getLast?_append_right _ (by simp)] at hc
      rw [show (',' :: ' ' :: (jsStrGetD v.postCode).data : List Char) =
        [',', ' '] ++ (jsStrGetD v.postCode).data from rfl,
        getLast?_append_right _ hpcn] at hc
      exact tokenList_getLast? hpc hc
    · rw [getLast?_append_right _ (by simp)] at hc
      rw [show (',' :: ' ' :: ((jsStrGetD v.postCode).data ++ ' ' ::
          (extractCity v.postOffices).data) : List Char) =
        [',', ' '] ++ ((jsStrGetD v.postCode).data ++ ' ' ::
          (extractCity v.postOffices).data) from rfl,
        getLast?_append_right _ (by simp),
        getLast?_append_right _ (by simp)] at hc
      rw [show (' ' :: (extractCity v.postOffices).data : List Char) =
        [' '] ++ (extractCity v.postOffices).data from rfl,
        getLast?_append_right _ hctn] at hc
      exact tokenList_getLast? hct hc
  · intro hhyp
    rw [hres]
    have hhyp2 : (jsStrGetD v.postCode).data ≠ [] ∨ (extractCity v.postOffices).data = [] := by
      rcases hhyp with h | h
      · left
        intro hdnil
        exact h ((data_eq_nil_iff _).mp hdnil)
      · right
        rw [h]
    have hpcchain := chainWs_of_token hpc
    have hctchain := chainWs_of_token hct
    have htail2 : List.Chain' (fun a b => jsWhitespace a = false ∨ jsWhitespace b = false)
        (' ' :: (extractCity v.postOffices).data) := by
      rw [List.chain'_cons']
      exact ⟨fun y hy => Or.inr (tokenList_head? hct hy).1, hctchain⟩
    have htail1 : (jsStrGetD v.postCode).data ≠ [] →
        List.Chain' (fun a b => jsWhitespace a = false ∨ jsWhitespace b = false)
          ((jsStrGetD v.postCode).data ++ ' ' :: (extractCity v.postOffices).data) := by
      intro hpcn
      rw [List.chain'_append]
      exact ⟨hpcchain, htail2, fun x hx y _ => Or.inl (tokenList_getLast? hpc hx).1⟩
    by_cases hP : addressPartsData v = [] <;>
      by_cases hpcn : (jsStrGetD v.postCode).data = [] <;>
      by_cases hctn : (extractCity v.postOffices).data = [] <;>
      simp only [hP, hpcn, hctn, eq_self_iff_true, if_true, if_false, List.append_nil]
    · simp
    · exact absurd hhyp2 (by simp [hpcn, hctn])
    · exact hpcchain
    · exact htail1 hpcn
    · exact hdwchain
    · exact absurd hhyp2 (by simp [hpcn, hctn])
    · rw [List.chain'_append]
      refine ⟨hdwchain, ?_, fun x hx y _ => Or.inl (hdwlast x hx).1⟩
      rw [List.chain'_cons']
      refine ⟨fun y _ => Or.inl (by simp), ?_⟩
      rw [List.chain'_cons']
      exact ⟨fun y hy => Or.inr (tokenList_head? hpc hy).1, hpcchain⟩
    · rw [List.chain'_append]
      refine ⟨hdwchain, ?_, fun x hx y _ => Or.inl (hdwlast x hx).1⟩
      rw [List.chain'_cons']
      refine ⟨fun y _ => Or.inl (by simp), ?_⟩
      rw [List.chain'_cons']
      refine ⟨?_, htail1 hpcn⟩
      intro y hy
      rw [head?_append_left _ hpcn] at hy
      exact Or.inr (tokenList_head? hpc hy).1

/-- Witness for C8 (amended), at the claim's concrete address: the composed
string is `"Mannerheimintie10, 00100 Helsinki"` and contains no two adjacent
whitespace characters. -/
theorem compose_address_properties_witness :
    composeAddress (VisitingAddress.mk 1 (some "Mannerheimintie") (some "10") none none
      (some "00100") (some [PostOffice.mk "3" (some "Helsinki")])) =
      "Mannerheimintie10, 00100 Helsinki" ∧
    List.Chain' (fun a b => jsWhitespace a = false ∨ jsWhitespace b = false)
      (composeAddress (VisitingAddress.mk 1 (some "Mannerheimintie") (some "10") none none
        (some "00100") (some [PostOffice.mk "3" (some "Helsinki")]))).data :=
  ⟨(compose_address_properties
      (VisitingAddress.mk 1 (some "Mannerheimintie") (some "10") none none
        (some "00100") (some [PostOffice.mk "3" (some "Helsinki")]))
      (by unfold tokenList; decide) (by unfold tokenList; decide) (by unfold tokenList; decide)
      (by unfold tokenList; decide) (by unfold tokenList; decide)
      (by unfold tokenList; decide)).1,
   (compose_address_properties
      (VisitingAddress.mk 1 (some "Mannerheimintie") (some "10") none none
        (some "00100") (some [PostOffice.mk "3" (some "Helsinki")]))
      (by unfold tokenList; decide) (by unfold tokenList; decide) (by unfold tokenList; decide)
      (by unfold tokenList; decide) (by unfold tokenList; decide)
      (by unfold tokenList; decide)).2.2.2.2
      (Or.inl (by decide))⟩

/-! ### Upsert store writer (`storeInSupabase`) -/

/-- A row of the read-back `select('id, business_id')` on the `company` table. -/
structure CompanyRecord where
  id : Nat
  business_id : String
deriving DecidableEq

/-- The `businessIdToCompanyId` map built by
`companyRecords.forEach(record => { map[record.business_id] = record.id })`. -/
def businessIdToCompanyId (records : List CompanyRecord) : List (String × Nat) :=
  records.foldl (fun m r => jsObjectSet m r.business_id r.id) []

/-- One element of the `embeddingData` array (`company_id` may be `undefined`
when the natural key is absent from the read-back, `embeddings` when the
vector list is shorter than the company list). -/
structure EmbeddingRow (V : Type) where
  company_id : Option Nat
  embeddings : Option V
deriving DecidableEq

/-- The `embeddingData` computation of `storeInSupabase`:
`companies.map((company, index) => ({company_id: map[company.businessId],
embeddings: vectors[index]})).filter(item => item.company_id)`. -/
def embeddingData {V : Type} (idMap : List (String × Nat)) (companies : List Company)
    (vectors : List V) : List (EmbeddingRow V) :=
  (companies.mapIdx fun index company =>
    EmbeddingRow.mk (jsObjectGet idMap company.businessId) vectors[index]?).filter
    (fun item => jsNumTruthy item.company_id)

theorem mapIdx_row_eq_zip {V : Type} (g : Company → Option Nat) :
    ∀ (l : List Company) (vv : List V), l.length = vv.length →
    (l.mapIdx fun i a => EmbeddingRow.mk (g a) vv[i]?) =
    (l.zip vv).map fun p => EmbeddingRow.mk (g p.1) (some p.2) := by
  intro l
  induction l with
  | nil =>
    intro vv h
    rfl
  | cons a l ih =>
    intro vv h
    cases vv with
    | nil => simp at h
    | cons v vs =>
      have h' : l.length = vs.length := by simpa using h
      simp only [List.mapIdx_cons, List.getElem?_cons_zero, List.getElem?_cons_succ,
        List.zip_cons_cons, List.map_cons]
      exact congrArg (List.cons _) (ih vs h')

/-! ### Store writer theorem (claim C2) -/

/-- Claim C2: with equally long entity and vector lists, the embedding rows
written by the store writer are exactly the entity–vector pairs (in order)
whose natural key resolves truthily through the map built from the read-back:
row `i` pairs the surrogate id resolved for entity `i` with vector `i`, and
entities whose key is absent from the read-back are silently dropped while
the remaining rows keep their positionally aligned vectors. -/
theorem store_embedding_alignment {V : Type} (records : List CompanyRecord)
    (companies : List Company) (vectors : List V)
    (h : companies.length = vectors.length) :
    embeddingData (businessIdToCompanyId records) companies vectors =
      ((companies.zip vectors).filter
        (fun p => jsNumTruthy (jsObjectGet (businessIdToCompanyId records) p.1.businessId))).map
        (fun p => EmbeddingRow.mk (jsObjectGet (businessIdToCompanyId records) p.1.businessId)
          (some p.2)) := by
  rw [embeddingData, mapIdx_row_eq_zip _ companies vectors h, List.filter_map]
  rfl

/-- Witness for C2: of two entities with vectors `[10, 20]`, the one whose key
`"A"` appears in the read-back yields the row `(1, 10)`; the unmapped key
`"B"` is silently dropped together with its vector. -/
theorem store_embedding_alignment_witness :
    embeddingData (businessIdToCompanyId [CompanyRecord.mk 1 "A"])
      [Company.mk "A Oy" "A" "01" (CompanyDetails.mk "A Oy" "" "" none ""),
       Company.mk "B Oy" "B" "02" (CompanyDetails.mk "B Oy" "" "" none "")]
      [10, 20] = [EmbeddingRow.mk (some 1) (some 10)] := by
  rw [store_embedding_alignment [CompanyRecord.mk 1 "A"]
    [Company.mk "A Oy" "A" "01" (CompanyDetails.mk "A Oy" "" "" none ""),
     Company.mk "B Oy" "B" "02" (CompanyDetails.mk "B Oy" "" "" none "")]
    ([10, 20] : List Nat) rfl]
  rfl

/-! ### Main orchestration (`createCompanyText`, `main`) -/

/-- `createCompanyText`: the one-line text representation used as vectorizer
input. -/
def createCompanyText (company : Company) : String :=
  let name := jsStrOrDefault (some company.details.name) company.name
  let description := company.details.description
  let address := company.details.address
  let registrationDate := jsStrGetD company.details.registrationDate
  let categoryName := company.details.categoryName
  "Company: " ++ name ++ ". Business ID: " ++ company.businessId ++
    ". Industry: " ++ categoryName ++ ". Description: " ++ description ++
    ". Address: " ++ address ++ ". Registration Date: " ++
    (if registrationDate = "" then "N/A" else registrationDate) ++ "."

/-- Observable outcome of one run of `main`: the process exit code and whether
the vectorizer and the store writer were invoked. -/
structure MainOut where
  exitCode : Nat
  vectorizeCalled : Bool
  storeCalled : Bool
deriving DecidableEq

/-- `main`: validate configuration, fetch, return early on an empty company
list (plain `return`, so the process exits 0), else vectorize and store; any
thrown error reaches the catch block, which calls `process.exit(1)`. The
collaborators are abstracted as oracles. -/
def mainPipeline {V : Type} (envOk : Bool) (fetchResult : Except Unit (List Company))
    (embed : List String → Except Unit (List V)) (storeResult : Except Unit Unit) :
    MainOut :=
  if !envOk then ⟨1, false, false⟩
  else
    match fetchResult with
    | Except.error _ => ⟨1, false, false⟩
    | Except.ok companies =>
      if companies.length = 0 then ⟨0, false, false⟩
      else
        match vectorizeWithVoyage embed (companies.map createCompanyText) with
        | Except.error _ => ⟨1, true, false⟩
        | Except.ok _ =>
          match storeResult with
          | Except.error _ => ⟨1, true, true⟩
          | Except.ok _ => ⟨0, true, true⟩

/-! ### Main orchestration theorem (claim C10) -/

/-- Claim C10: with valid configuration, a source yielding zero entities makes
`main` return early — the vectorizer and the store writer are never invoked —
and the process terminates with success exit code 0; an empty source is not a
fatal error. -/
theorem main_empty_source {V : Type} (embed : List String → Except Unit (List V))
    (storeResult : Except Unit Unit) :
    mainPipeline true (Except.ok []) embed storeResult =
      MainOut.mk 0 false false := rfl

/-- Witness for C10 at concrete oracles (a failing embedder and a failing
store, neither of which is reached). -/
theorem main_empty_source_witness :
    mainPipeline (V := Nat) true (Except.ok [])
      (fun _ => Except.error ()) (Except.error ()) = MainOut.mk 0 false false :=
  main_empty_source (fun _ => Except.error ()) (Except.error ())

/-! ### Translator theorems (claims C6, C7) -/

/-- Claim C6: `translateToEnglish` returns its input unchanged and performs no
network call when the input is empty, or when it contains no Finnish diacritic
and consists only of ASCII letters, whitespace, comma, period and hyphen; in
particular the heuristic-skip path never invokes the translation collaborator. -/
theorem translate_skip (api : String → Except Unit String) (text : String)
    (h : text = "" ∨ (hasFinnishChars text = false ∧ matchesAsciiPattern text = true)) :
    translateToEnglish api text = (text, false) := by
  rcases h with h | ⟨h1, h2⟩
  · simp [translateToEnglish, h]
  · have hne : ¬text = "" := by
      intro he
      rw [he] at h2
      simp [matchesAsciiPattern] at h2
    simp [translateToEnglish, hne, h1, h2]

/-- Witness for C6: `translate("")` returns `""` and `translate("Manufacturing")`
returns `"Manufacturing"`, both without invoking the network collaborator. -/
theorem translate_skip_witness :
    translateToEnglish (fun _ => Except.ok "zzz") "Manufacturing" = ("Manufacturing", false) ∧
    translateToEnglish (fun _ => Except.error ()) "" = ("", false) :=
  ⟨translate_skip _ "Manufacturing" (Or.inr (by decide)),
   translate_skip _ "" (Or.inl rfl)⟩

/-- Counterexample to claim C7 as stated: under a failing translation service,
`translate("Teollisuus")` does NOT return the dictionary entry
`"Manufacturing"`: the already-English heuristic intercepts the all-ASCII word
`"Teollisuus"` and returns it unchanged without calling the service, even
though the fallback dictionary does map it to `"Manufacturing"`. -/
theorem translate_teollisuus_counterexample :
    translateToEnglish (fun _ => Except.error ()) "Teollisuus" = ("Teollisuus", false) ∧
    translateFinnishToEnglishBasic "Teollisuus" = "Manufacturing" ∧
    ("Teollisuus" : String) ≠ "Manufacturing" := by
  refine ⟨rfl, rfl, by decide⟩

/-- Claim C7 as amended: for every input that actually reaches the external
translation call (nonempty, and either containing a Finnish diacritic or not
matching the plain-ASCII pattern), a failing call makes `translate` return the
static dictionary's entry for the exact input when one exists and the input
unchanged otherwise, never propagating the error; inputs intercepted by the
already-English heuristic (such as `"Teollisuus"`) are returned unchanged
without any network call. -/
theorem translate_fallback (api : String → Except Unit String) (text : String)
    (hfail : api text = Except.error ())
    (hne : text ≠ "")
    (hreach : hasFinnishChars text = true ∨ matchesAsciiPattern text = false) :
    translateToEnglish api text = (translateFinnishToEnglishBasic text, true) := by
  have hcond : (!hasFinnishChars text && matchesAsciiPattern text) = false := by
    rcases hreach with h | h <;> simp [h]
  simp [translateToEnglish, hne, hcond, hfail]

/-- Witness for C7 (amended): under a failing service, `translate("Sähköasennus")`
returns the dictionary entry `"Electrical installation"` via the fallback. -/
theorem translate_fallback_witness :
    translateToEnglish (fun _ => Except.error ()) "Sähköasennus" =
      ("Electrical installation", true) := by
  rw [translate_fallback (fun _ => Except.error ()) "Sähköasennus" rfl (by decide)
    (Or.inl (by decide))]
  rfl

end BusinessTurku
